import Mathlib

/-!
Verification of the content-retrieval and budget-constrained aggregation
pipeline of `src/web_search.py` against its natural-language specification.

Python strings are modelled as `List Char` (`Str`); Python's unbounded
`int` as `Nat`/`Int`; Python `float` delays as `ℚ`; dictionaries as
association lists in insertion order (Python dicts preserve insertion
order and have unique keys).  The float expression
`int(original_length / total * max_total)` is modelled as exact rational
arithmetic with floor, i.e. `originalLen * maxTotal / totalOrig` in `Nat`.
Network and HTML-parsing effects are modelled by explicit per-attempt
outcome functions; `BeautifulSoup` text extraction (an external library)
is abstracted as the extracted-text component of a successful outcome.
-/

namespace WebSearch

/-- Python strings, modelled as lists of characters. -/
abbrev Str := List Char

/-- Python `str.strip()`: drop leading and trailing whitespace. -/
def pyStrip (s : Str) : Str :=
  ((s.dropWhile Char.isWhitespace).reverse.dropWhile Char.isWhitespace).reverse

/-- The truncation marker `"... [content truncated]"` appended by
`get_content_for_llm` and `fetch_documentation_for_llm` (23 characters). -/
def truncationMarker : Str := ("... [content truncated]").toList

/-! ## format_search_results (src/web_search.py lines 72-103) -/

/-- The content-preview computation of `format_search_results`
(line 94): `result.content[:500] + "..." if len(result.content) > 500
else result.content`. -/
def contentPreview (c : Str) : Str :=
  if 500 < c.length then c.take 500 ++ ("...").toList else c

/-- One search result as consumed by `format_search_results`. -/
structure FmtResult where
  title : String
  url : String
  description : String
  age : Option String
  content : Option Str

/-- The markdown elements appended for one result by the loop of
`format_search_results` (lines 83-97).  The content-preview block is
emitted only when `include_content` is set and the result's content is
present and non-empty (Python truthiness of `result.content`). -/
def resultMarkdown (includeContent : Bool) (idx : Nat) (r : FmtResult) : List Str :=
  [(toString idx ++ ". " ++ r.title).toList,
   ("URL: " ++ r.url).toList,
   ("Description: " ++ r.description).toList]
  ++ (match r.age with
      | some a => [("Age: " ++ a).toList]
      | none => [])
  ++ (match r.content with
      | some c =>
          if includeContent && !c.isEmpty then
            [("\nContent Preview:").toList,
             ("```\n").toList ++ contentPreview c ++ ("\n```").toList]
          else []
      | none => [])
  ++ [("----------------------------------------\n").toList]

/-- The full list of markdown elements built by `format_search_results`
before the final `"\n".join`. -/
def formatSearchResults (query : String) (includeContent : Bool)
    (results : List FmtResult) : List Str :=
  ("# Search Results for: " ++ query ++ "\n").toList ::
    ((List.enumFrom 1 results).map
      (fun p => resultMarkdown includeContent p.1 p.2)).flatten

/-! ## brave_search_with_content request parameters (lines 244-252) -/

/-- The query parameters sent to the Brave Search API.  `count` is
clamped by `count = min(count, 20)` (line 244); `offset` is included
only when positive (lines 251-252). -/
structure BraveParams where
  q : String
  count : Int
  offset : Option Int

/-- Construction of the request parameters in `brave_search_with_content`. -/
def braveParams (query : String) (count : Int) (offset : Int) : BraveParams :=
  { q := query
    count := min count 20
    offset := if 0 < offset then some offset else none }

/-! ## fetch_url_content (src/web_search.py lines 105-170) -/

/-- Boolean contiguous-substring test, modelling Python's `in` operator
on strings. -/
def listContains (hay needle : Str) : Bool :=
  match hay with
  | [] => needle.isEmpty
  | _ :: t => needle.isPrefixOf hay || listContains t needle

/-- The content-type gate of `fetch_url_content` (line 135): the fetch
proceeds only when the `Content-Type` header contains `text/html` or
`application/xhtml+xml`. -/
def htmlTypeOk (ct : Str) : Bool :=
  listContains ct ("text/html").toList || listContains ct ("application/xhtml+xml").toList

/-- The outcome of one fetch attempt, abstracting the network and the
HTML-extraction pipeline: either some exception was raised during the
attempt, or a response arrived with given success flag, status,
content type, and (for successful HTML responses) extracted text. -/
inductive AttemptOutcome where
  | raised : AttemptOutcome
  | response (ok : Bool) (status : Nat) (contentType : Str) (extracted : Str) : AttemptOutcome
deriving DecidableEq

/-- Whether an attempt outcome is a failed attempt in the sense of the
retry policy of `fetch_url_content` (exception raised, or response not
`ok`). -/
def failedAttempt : AttemptOutcome → Bool
  | .raised => true
  | .response ok _ _ _ => !ok

/-- Observable result of a run of `fetch_url_content`: the returned
value, the number of attempts performed, and the sleeps executed. -/
structure FetchRun where
  result : Option Str
  attempts : Nat
  delays : List ℚ
deriving DecidableEq

/-- One step of the attempt loop of `fetch_url_content` (lines 118-170),
with `net` giving the outcome of each attempt, `k = retry_count` and
`dl = delay`.  A failed attempt at index `a < k` sleeps `dl` and
retries; a failed attempt at index `k` returns `None`; a successful
response with a non-HTML content type returns `None` immediately with
no retry; a successful HTML response returns the extracted text. -/
def fetchAux (net : Nat → AttemptOutcome) (k : Nat) (dl : ℚ) : Nat → Nat → FetchRun
  | 0, _ => ⟨none, 0, []⟩
  | fuel + 1, a =>
    match net a with
    | .raised =>
      if a < k then
        ⟨(fetchAux net k dl fuel (a + 1)).result,
         (fetchAux net k dl fuel (a + 1)).attempts + 1,
         dl :: (fetchAux net k dl fuel (a + 1)).delays⟩
      else ⟨none, 1, []⟩
    | .response ok _ ct text =>
      if ok then
        if htmlTypeOk ct then ⟨some text, 1, []⟩ else ⟨none, 1, []⟩
      else
        if a < k then
          ⟨(fetchAux net k dl fuel (a + 1)).result,
           (fetchAux net k dl fuel (a + 1)).attempts + 1,
           dl :: (fetchAux net k dl fuel (a + 1)).delays⟩
        else ⟨none, 1, []⟩

/-- The full attempt loop `for attempt in range(retry_count + 1)` of
`fetch_url_content`. -/
def fetchUrlContentModel (net : Nat → AttemptOutcome) (k : Nat) (dl : ℚ) : FetchRun :=
  fetchAux net k dl (k + 1) 0

/-! ## brave_search_with_content retry loop (lines 254-316) -/

/-- One provider response of the Brave Search API as seen by the retry
loop: success flag, HTTP status, and whether the JSON body parses. -/
structure BraveResponse where
  ok : Bool
  status : Nat
  parseOk : Bool
deriving DecidableEq

/-- Observable result of a run of the search retry loop: whether a
response was successfully parsed, the backoff sleeps executed, and the
number of attempts performed. -/
structure BraveRun where
  result : Option Unit
  delays : List ℚ
  attempts : Nat
deriving DecidableEq

/-- The backoff delay `wait_time = retry_delay * (attempt + 1)` slept
after the 0-based attempt `a` fails with a 429 status (line 267). -/
def backoffDelay (d : ℚ) (a : Nat) : ℚ := d * (a + 1)

/-- One step of the retry loop of `brave_search_with_content`
(lines 254-316): a successful response is parsed (returning `None` on a
parse failure, with no retry); a non-success response retries only when
its status is 429 and attempts remain, sleeping `backoffDelay d a`;
any other non-success response returns immediately. -/
def braveAux (resp : Nat → BraveResponse) (d : ℚ) (k : Nat) : Nat → Nat → BraveRun
  | 0, _ => ⟨none, [], 0⟩
  | fuel + 1, a =>
    if (resp a).ok then
      if (resp a).parseOk then ⟨some (), [], 1⟩ else ⟨none, [], 1⟩
    else if (resp a).status = 429 ∧ a < k then
      ⟨(braveAux resp d k fuel (a + 1)).result,
       backoffDelay d a :: (braveAux resp d k fuel (a + 1)).delays,
       (braveAux resp d k fuel (a + 1)).attempts + 1⟩
    else ⟨none, [], 1⟩

/-- The full retry loop `for attempt in range(retry_count + 1)` of
`brave_search_with_content`. -/
def braveSearchModel (resp : Nat → BraveResponse) (d : ℚ) (k : Nat) : BraveRun :=
  braveAux resp d k (k + 1) 0

/-- The provider response sequence [429, 429, 200-with-parse-success]
of the rate-limit backoff scenario. -/
def brave429Scenario : Nat → BraveResponse :=
  fun n => if n < 2 then ⟨false, 429, false⟩ else ⟨true, 200, true⟩

/-! ## fetch_documentation_for_llm (src/web_search.py lines 394-574) -/

/-- Source metadata as collected in the `sources` list (lines 501-506):
url, title, stripped content length, and truncated flag. -/
structure SourceMeta where
  url : String
  title : String
  contentLength : Nat
  truncated : Bool
deriving DecidableEq

/-- Stable insertion of an item into a list kept in descending order of
content length: the item goes after every earlier item of length ≥ its
own, matching the stability of Python's `sorted(..., reverse=True)`. -/
def insertByLenDesc (x : String × Str) : List (String × Str) → List (String × Str)
  | [] => [x]
  | y :: ys => if x.2.length < y.2.length then y :: insertByLenDesc x ys else x :: y :: ys

/-- The sort `sorted(url_content.items(), key=lambda x: len(x[1]),
reverse=True)` of line 481: stable descending sort by raw content
length. -/
def sortByLenDesc : List (String × Str) → List (String × Str)
  | [] => []
  | x :: xs => insertByLenDesc x (sortByLenDesc xs)

/-- Title resolution (lines 485, 551): the title of the first search
result object whose url matches, or `"Unknown Title"`. -/
def findTitle (srs : List (String × String)) (u : String) : String :=
  match srs.find? (fun p => p.1 == u) with
  | some p => p.2
  | none => "Unknown Title"

/-- Phase-1 per-source storage (lines 488-495): strip the content, then
truncate to `maxPer` characters plus the truncation marker when the
stripped length exceeds `maxPer`, else keep the stripped content. -/
def phase1Store (maxPer : Nat) (c : Str) : Str :=
  if maxPer < (pyStrip c).length
  then (pyStrip c).take maxPer ++ truncationMarker
  else pyStrip c

/-- The Phase-1 `truncated_content` mapping, in sorted iteration order. -/
def phase1Content (maxPer : Nat) (su : List (String × Str)) : List (String × Str) :=
  su.map (fun p => (p.1, phase1Store maxPer p.2))

/-- The Phase-1 running `total_content_length` (line 498). -/
def phase1Total (maxPer : Nat) (su : List (String × Str)) : Nat :=
  ((phase1Content maxPer su).map (fun p => p.2.length)).sum

/-- The source-metadata record appended for one source (lines 501-506). -/
def mkSourceMeta (srs : List (String × String)) (maxPer : Nat)
    (p : String × Str) : SourceMeta :=
  { url := p.1
    title := findTitle srs p.1
    contentLength := (pyStrip p.2).length
    truncated := maxPer < (pyStrip p.2).length }

/-- The `sources` list built by the Phase-1 loop, in sorted order. -/
def mkSources (srs : List (String × String)) (maxPer : Nat)
    (su : List (String × Str)) : List SourceMeta :=
  su.map (mkSourceMeta srs maxPer)

/-- One Phase-2 allocation record: url, original (raw) length, the
clamped allocated length, and the stored content. -/
structure Alloc where
  url : String
  origLen : Nat
  allocated : Nat
  stored : Str
deriving DecidableEq

/-- The Phase-2 allocation for one source (lines 517-531):
`allocated = min(max(int(originalLen / totalOrig * maxTotal), 1000),
originalLen)`, storing the first `allocated` raw characters plus the
truncation marker when `allocated < originalLen`, else the raw content.
The float expression is modelled as exact `Nat` floor division. -/
def allocFor (maxTotal totalOrig : Nat) (p : String × Str) : Alloc :=
  { url := p.1
    origLen := p.2.length
    allocated := min (max (p.2.length * maxTotal / totalOrig) 1000) p.2.length
    stored :=
      if min (max (p.2.length * maxTotal / totalOrig) 1000) p.2.length < p.2.length
      then p.2.take (min (max (p.2.length * maxTotal / totalOrig) 1000) p.2.length)
             ++ truncationMarker
      else p.2 }

/-- The Phase-2 loop over the sorted sources (lines 517-544) with a
running total of stored lengths: after storing a source, the loop stops
as soon as the running total has reached `maxTotal`. -/
def phase2Go (maxTotal totalOrig : Nat) : List (String × Str) → Nat → List Alloc
  | [], _ => []
  | p :: rest, running =>
    if maxTotal ≤ running + (allocFor maxTotal totalOrig p).stored.length
    then [allocFor maxTotal totalOrig p]
    else allocFor maxTotal totalOrig p ::
      phase2Go maxTotal totalOrig rest
        (running + (allocFor maxTotal totalOrig p).stored.length)

/-- All Phase-2 allocations, starting from a zero running total, with
`totalOrig = sum(len(content) for _, content in sorted_urls)`. -/
def phase2Allocs (su : List (String × Str)) (maxTotal : Nat) : List Alloc :=
  phase2Go maxTotal ((su.map (fun p => p.2.length)).sum) su 0

/-- The Phase-2 `new_truncated_content` mapping, in allocation order. -/
def phase2Content (su : List (String × Str)) (maxTotal : Nat) : List (String × Str) :=
  (phase2Allocs su maxTotal).map (fun a => (a.url, a.stored))

/-- The in-place update `source['truncated'] = original_length >
allocated_length` applied to the first source with the given url
(lines 534-537). -/
def setTruncFlag (u : String) (b : Bool) : List SourceMeta → List SourceMeta
  | [] => []
  | s :: ss =>
    if s.url == u then { s with truncated := b } :: ss else s :: setTruncFlag u b ss

/-- The source-metadata updates performed by the Phase-2 loop, one per
processed source. -/
def updateSources (srcs : List SourceMeta) (allocs : List Alloc) : List SourceMeta :=
  allocs.foldl (fun ss a => setTruncFlag a.url (decide (a.allocated < a.origLen)) ss) srcs

/-- The content blocks of `formatted_content` (lines 549-558), one
`(title, url, content)` triple per entry of `truncated_content`, in
iteration order. -/
def contentBlocks (srs : List (String × String))
    (tc : List (String × Str)) : List (String × String × Str) :=
  tc.map (fun p => (findTitle srs p.1, p.1, p.2))

/-- The trailing Sources Summary rows (lines 561-565): the sources
enumerated from 1, keeping only those whose url is a key of
`truncated_content`. -/
def summaryRows (srcs : List SourceMeta)
    (tc : List (String × Str)) : List (Nat × SourceMeta) :=
  (List.enumFrom 1 srcs).filter (fun q => tc.any (fun p => p.1 == q.2.url))

/-- The claim-relevant components of the dictionary returned by
`fetch_documentation_for_llm`: the final `truncated_content`, the final
`sources` list, `total_content_length`, and the content blocks and
summary rows of `formatted_content` in rendering order. -/
structure DocResult where
  truncatedContent : List (String × Str)
  sources : List SourceMeta
  totalContentLength : Nat
  blocks : List (String × String × Str)
  summary : List (Nat × SourceMeta)
deriving DecidableEq

/-- The aggregation pipeline of `fetch_documentation_for_llm`
(lines 473-574) on a url→content mapping `uc` (a dict in insertion
order) and the search-result objects `srs` (url, title).  Phase 2 runs
exactly when the Phase-1 total exceeds `maxTotal`. -/
def fetchDocumentationForLlm (uc : List (String × Str))
    (srs : List (String × String)) (maxPer maxTotal : Nat) : DocResult :=
  if maxTotal < phase1Total maxPer (sortByLenDesc uc) then
    { truncatedContent := phase2Content (sortByLenDesc uc) maxTotal
      sources := updateSources (mkSources srs maxPer (sortByLenDesc uc))
        (phase2Allocs (sortByLenDesc uc) maxTotal)
      totalContentLength :=
        ((phase2Content (sortByLenDesc uc) maxTotal).map (fun p => p.2.length)).sum
      blocks := contentBlocks srs (phase2Content (sortByLenDesc uc) maxTotal)
      summary := summaryRows
        (updateSources (mkSources srs maxPer (sortByLenDesc uc))
          (phase2Allocs (sortByLenDesc uc) maxTotal))
        (phase2Content (sortByLenDesc uc) maxTotal) }
  else
    { truncatedContent := phase1Content maxPer (sortByLenDesc uc)
      sources := mkSources srs maxPer (sortByLenDesc uc)
      totalContentLength := phase1Total maxPer (sortByLenDesc uc)
      blocks := contentBlocks srs (phase1Content maxPer (sortByLenDesc uc))
      summary := summaryRows (mkSources srs maxPer (sortByLenDesc uc))
        (phase1Content maxPer (sortByLenDesc uc)) }

end WebSearch

namespace WebSearch

/-! ## Theorems -/

/-- Length of the truncation marker. -/
theorem truncationMarker_length : truncationMarker.length = 23 := by decide

/-- C7: For every query and every requested count value, the count
parameter actually passed to the search provider is always ≤ 20,
regardless of the requested value (`count = min(count, 20)`,
src/web_search.py line 244). -/
theorem braveParams_count_le_20 (query : String) (count offset : Int) :
    (braveParams query count offset).count ≤ 20 :=
  min_le_right count 20

/-- C10: In the markdown produced by `format_search_results` with
`include_content=True`, every result whose fetched content exceeds 500
characters has its content preview truncated to exactly the first 500
characters followed by `"..."` (so its length is 503), and every result
whose content is ≤ 500 characters has it included whole; hence no
preview ever exceeds 503 characters. -/
theorem contentPreview_spec (c : Str) :
    (500 < c.length →
      contentPreview c = c.take 500 ++ ("...").toList ∧
      (contentPreview c).length = 503) ∧
    (c.length ≤ 500 → contentPreview c = c) ∧
    (contentPreview c).length ≤ 503 := by
  by_cases h : 500 < c.length
  · have hlen : (contentPreview c).length = 503 := by
      simp only [contentPreview, if_pos h, List.length_append, List.length_take]
      have : ("...").toList.length = 3 := by decide
      omega
    exact ⟨fun _ => ⟨by simp [contentPreview, h], hlen⟩,
           fun h' => absurd h (not_lt.mpr h'), le_of_eq hlen⟩
  · have heq : contentPreview c = c := by simp [contentPreview, h]
    exact ⟨fun h' => absurd h' h, fun _ => heq, by rw [heq]; omega⟩

/-- Attempt counts of the fetch loop never exceed the available fuel. -/
theorem fetchAux_attempts_le (net : Nat → AttemptOutcome) (k : Nat) (dl : ℚ) :
    ∀ fuel a, (fetchAux net k dl fuel a).attempts ≤ fuel := by
  intro fuel
  induction fuel with
  | zero => intro a; simp [fetchAux]
  | succ f ih =>
    intro a
    cases hn : net a with
    | raised =>
      by_cases h : a < k
      · simp only [fetchAux, hn, if_pos h]
        exact Nat.succ_le_succ (ih (a + 1))
      · simp [fetchAux, hn, h]
    | response ok st ct tx =>
      by_cases ho : ok
      · by_cases hh : htmlTypeOk ct <;> simp [fetchAux, hn, ho, hh]
      · by_cases h : a < k
        · simp only [fetchAux, hn, if_neg ho, if_pos h]
          exact Nat.succ_le_succ (ih (a + 1))
        · simp [fetchAux, hn, ho, h]

/-- The fetch loop performs at least one attempt when fuel is available. -/
theorem fetchAux_attempts_pos (net : Nat → AttemptOutcome) (k : Nat) (dl : ℚ) :
    ∀ fuel a, 1 ≤ fuel → 1 ≤ (fetchAux net k dl fuel a).attempts := by
  intro fuel a hfuel
  match fuel, hfuel with
  | f + 1, _ =>
    cases hn : net a with
    | raised =>
      by_cases h : a < k <;> simp [fetchAux, hn, h]
    | response ok st ct tx =>
      by_cases ho : ok
      · by_cases hh : htmlTypeOk ct <;> simp [fetchAux, hn, ho, hh]
      · by_cases h : a < k <;> simp [fetchAux, hn, ho, h]

/-- When every remaining attempt fails, the fetch loop exhausts its fuel,
sleeping the fixed delay between consecutive attempts, and returns `none`. -/
theorem fetchAux_all_failed (net : Nat → AttemptOutcome) (k : Nat) (dl : ℚ) :
    ∀ fuel a, k + 1 = a + fuel →
      (∀ i, a ≤ i → i ≤ k → failedAttempt (net i) = true) →
      fetchAux net k dl fuel a = ⟨none, fuel, List.replicate (fuel - 1) dl⟩ := by
  intro fuel
  induction fuel with
  | zero => intro a _ _; simp [fetchAux]
  | succ f ih =>
    intro a hk hfail
    have hak : a ≤ k := by omega
    have hfa : failedAttempt (net a) = true := hfail a le_rfl hak
    have hstep : ∀ (h : a < k),
        (fetchAux net k dl f (a + 1)).result = none ∧
        (fetchAux net k dl f (a + 1)).attempts = f ∧
        (fetchAux net k dl f (a + 1)).delays = List.replicate (f - 1) dl := by
      intro h
      have := ih (a + 1) (by omega) (fun i hi hik => hfail i (by omega) hik)
      rw [this]
      exact ⟨rfl, rfl, rfl⟩
    have hrep : ∀ (h : a < k), dl :: List.replicate (f - 1) dl = List.replicate f dl := by
      intro h
      have hf : 1 ≤ f := by omega
      have : f = (f - 1) + 1 := by omega
      rw [this, List.replicate_succ]
      simp
    cases hn : net a with
    | raised =>
      by_cases h : a < k
      · obtain ⟨h1, h2, h3⟩ := hstep h
        simp only [fetchAux, hn, if_pos h, h1, h2, h3]
        rw [FetchRun.mk.injEq]
        refine ⟨rfl, by omega, ?_⟩
        have := hrep h
        simpa using this
      · have : f = 0 := by omega
        subst this
        simp [fetchAux, hn, h]
    | response ok st ct tx =>
      have ho : ok = false := by
        simpa [failedAttempt, hn] using hfa
      subst ho
      by_cases h : a < k
      · obtain ⟨h1, h2, h3⟩ := hstep h
        simp only [fetchAux, hn, Bool.false_eq_true, if_false, if_pos h, h1, h2, h3]
        rw [FetchRun.mk.injEq]
        refine ⟨rfl, by omega, ?_⟩
        have := hrep h
        simpa using this
      · have : f = 0 := by omega
        subst this
        simp [fetchAux, hn, h]

/-- C6: For every URL and every behaviour of the network (non-success
status, timeout, parse error, any raised exception), `fetch_url_content`
never propagates an error to its caller: the loop always terminates with
an `Option` result within `retry_count + 1` attempts, and when every
attempt fails, each failed attempt is retried with the fixed delay `dl`
between attempts and the function returns `None` after the last failed
attempt (src/web_search.py lines 118-170). -/
theorem fetch_soft_failure (net : Nat → AttemptOutcome) (k : Nat) (dl : ℚ) :
    1 ≤ (fetchUrlContentModel net k dl).attempts ∧
    (fetchUrlContentModel net k dl).attempts ≤ k + 1 ∧
    ((∀ i, i ≤ k → failedAttempt (net i) = true) →
      fetchUrlContentModel net k dl = ⟨none, k + 1, List.replicate k dl⟩) := by
  refine ⟨fetchAux_attempts_pos net k dl (k + 1) 0 (by omega),
          fetchAux_attempts_le net k dl (k + 1) 0, ?_⟩
  intro hfail
  have := fetchAux_all_failed net k dl (k + 1) 0 (by omega) (fun i _ hik => hfail i hik)
  simpa [fetchUrlContentModel] using this

/-- Witness for C6: a network that raises on every attempt, with
`retry_count = 2` and delay 1, yields three attempts, two fixed delays
and a `None` result. -/
theorem fetch_soft_failure_witness :
    fetchUrlContentModel (fun _ => AttemptOutcome.raised) 2 1
      = ⟨none, 3, List.replicate 2 1⟩ :=
  (fetch_soft_failure (fun _ => AttemptOutcome.raised) 2 1).2.2 (fun _ _ => rfl)

/-- C5: For every URL whose HTTP response is successful but whose
`Content-Type` is neither an HTML nor an XHTML type,
`fetch_url_content` returns `None` immediately on that attempt, with
zero retry attempts (and zero sleeps) performed afterwards
(src/web_search.py lines 134-137). -/
theorem fetch_nonHtml_immediate (net : Nat → AttemptOutcome) (k : Nat) (dl : ℚ)
    (status : Nat) (ct text : Str)
    (hnet : net 0 = AttemptOutcome.response true status ct text)
    (hct : htmlTypeOk ct = false) :
    fetchUrlContentModel net k dl = ⟨none, 1, []⟩ := by
  unfold fetchUrlContentModel
  simp [fetchAux, hnet, hct]

/-- Witness for C5: a `Content-Type: application/pdf` response on the
first attempt returns `None` with exactly one attempt and no sleeps. -/
theorem fetch_nonHtml_immediate_witness :
    fetchUrlContentModel
        (fun _ => AttemptOutcome.response true 200 (("application/pdf").toList) []) 2 1
      = ⟨none, 1, []⟩ :=
  fetch_nonHtml_immediate _ 2 1 200 (("application/pdf").toList) [] rfl (by decide)

/-- Structural specification of the search retry loop: it performs at
least one attempt and at most `k + 1`; its sleeps are exactly
`backoffDelay d` over the consecutive retried attempt indices; and every
retried attempt saw a non-success response with status 429. -/
theorem braveAux_spec (resp : Nat → BraveResponse) (d : ℚ) (k : Nat) :
    ∀ fuel a, k + 1 = a + fuel → 1 ≤ fuel →
      1 ≤ (braveAux resp d k fuel a).attempts ∧
      (braveAux resp d k fuel a).delays
        = (List.range' a ((braveAux resp d k fuel a).attempts - 1)).map (backoffDelay d) ∧
      (∀ i, a ≤ i → i < a + ((braveAux resp d k fuel a).attempts - 1) →
        ((resp i).ok = false ∧ (resp i).status = 429)) ∧
      a + (braveAux resp d k fuel a).attempts ≤ k + 1 := by
  intro fuel
  induction fuel with
  | zero => intro a _ h1; exact absurd h1 (by omega)
  | succ f ih =>
    intro a hk _
    by_cases ho : (resp a).ok
    · have heq : braveAux resp d k (f + 1) a
          = ⟨if (resp a).parseOk then some () else none, [], 1⟩ := by
        by_cases hp : (resp a).parseOk <;> simp [braveAux, ho, hp]
      rw [heq]
      refine ⟨by simp, by simp [List.range'], ?_, by simp; omega⟩
      intro i hi hi'
      simp only [Nat.sub_self] at hi'
      omega
    · by_cases hr : (resp a).status = 429 ∧ a < k
      · have hf : 1 ≤ f := by omega
        obtain ⟨ih1, ih2, ih3, ih4⟩ := ih (a + 1) (by omega) hf
        have heq : braveAux resp d k (f + 1) a
            = ⟨(braveAux resp d k f (a + 1)).result,
               backoffDelay d a :: (braveAux resp d k f (a + 1)).delays,
               (braveAux resp d k f (a + 1)).attempts + 1⟩ := by
          simp [braveAux, ho, hr]
        rw [heq]
        refine ⟨by simp, ?_, ?_, ?_⟩
        · show backoffDelay d a :: (braveAux resp d k f (a + 1)).delays
            = (List.range' a ((braveAux resp d k f (a + 1)).attempts + 1 - 1)).map
                (backoffDelay d)
          have hB : (braveAux resp d k f (a + 1)).attempts + 1 - 1
              = ((braveAux resp d k f (a + 1)).attempts - 1) + 1 := by omega
          rw [hB, List.range'_succ, List.map_cons, ih2]
        · intro i hi hi'
          rcases Nat.eq_or_lt_of_le hi with heq' | hlt
          · exact ⟨by simpa [← heq'] using ho, by rw [← heq']; exact hr.1⟩
          · exact ih3 i hlt (by simp only at hi' ⊢; omega)
        · show a + ((braveAux resp d k f (a + 1)).attempts + 1) ≤ k + 1
          omega
      · have heq : braveAux resp d k (f + 1) a = ⟨none, [], 1⟩ := by
          simp only [braveAux, if_neg ho]
          rw [if_neg hr]
        rw [heq]
        refine ⟨by simp, by simp [List.range'], ?_, by simp; omega⟩
        intro i hi hi'
        simp only [Nat.sub_self] at hi'
        omega

/-- C4: The search retries only on a rate-limit (429) response, waiting
`retry_delay × attempt_index` before the `attempt_index`-th retry, up to
`retry_count` retries; the response sequence `[429, 429, 200]` with
`retry_count = 2` produces exactly two delays of strictly increasing
duration and one successful parse and never a third retry, while any
other non-success response fails immediately with no retry
(src/web_search.py lines 254-272). -/
theorem brave_retry_spec (d : ℚ) (hd : 0 < d) :
    (∀ (resp : Nat → BraveResponse) (k : Nat),
        (braveSearchModel resp d k).delays
          = (List.range ((braveSearchModel resp d k).attempts - 1)).map (backoffDelay d) ∧
        (∀ i, i < (braveSearchModel resp d k).attempts - 1 →
          ((resp i).ok = false ∧ (resp i).status = 429)) ∧
        (braveSearchModel resp d k).attempts ≤ k + 1) ∧
    (∀ (resp : Nat → BraveResponse) (k : Nat),
        (resp 0).ok = false → (resp 0).status ≠ 429 →
        braveSearchModel resp d k = ⟨none, [], 1⟩) ∧
    (braveSearchModel brave429Scenario d 2
        = ⟨some (), [backoffDelay d 0, backoffDelay d 1], 3⟩ ∧
      backoffDelay d 0 < backoffDelay d 1) := by
  refine ⟨?_, ?_, ?_, ?_⟩
  · intro resp k
    obtain ⟨h1, h2, h3, h4⟩ := braveAux_spec resp d k (k + 1) 0 (by omega) (by omega)
    refine ⟨?_, ?_, ?_⟩
    · simpa [braveSearchModel, List.range_eq_range'] using h2
    · intro i hi
      exact h3 i (by omega) (by simpa [braveSearchModel] using hi)
    · simpa [braveSearchModel] using h4
  · intro resp k h1 h2
    unfold braveSearchModel
    simp [braveAux, h1, h2]
  · rfl
  · have h01 : ((0 : Nat) : ℚ) + 1 < ((1 : Nat) : ℚ) + 1 := by norm_num
    exact mul_lt_mul_of_pos_left h01 hd

/-- Witness for C4 at `retry_delay = 2`: the `[429, 429, 200]` scenario
with `retry_count = 2` yields a successful parse after exactly the two
increasing delays 2·1 and 2·2. -/
theorem brave_retry_spec_witness :
    braveSearchModel brave429Scenario 2 2
        = ⟨some (), [backoffDelay 2 0, backoffDelay 2 1], 3⟩ ∧
      backoffDelay 2 0 < backoffDelay 2 1 :=
  (brave_retry_spec 2 (by norm_num)).2.2

/-- Inserting into the length-descending order is a permutation. -/
theorem insertByLenDesc_perm (x : String × Str) :
    ∀ l, (insertByLenDesc x l).Perm (x :: l) := by
  intro l
  induction l with
  | nil => simp [insertByLenDesc]
  | cons y ys ih =>
    by_cases h : x.2.length < y.2.length
    · simp only [insertByLenDesc, if_pos h]
      exact (ih.cons y).trans (List.Perm.swap x y ys)
    · simp [insertByLenDesc, if_neg h]

/-- The sort of line 481 permutes the url→content items. -/
theorem sortByLenDesc_perm : ∀ l, (sortByLenDesc l).Perm l := by
  intro l
  induction l with
  | nil => simp [sortByLenDesc]
  | cons x xs ih =>
    exact (insertByLenDesc_perm x (sortByLenDesc xs)).trans (ih.cons x)

/-- Insertion preserves the descending-by-length pairwise order. -/
theorem pairwise_insertByLenDesc (x : String × Str) :
    ∀ l, List.Pairwise (fun a b : String × Str => b.2.length ≤ a.2.length) l →
      List.Pairwise (fun a b : String × Str => b.2.length ≤ a.2.length)
        (insertByLenDesc x l) := by
  intro l
  induction l with
  | nil => intro _; simp [insertByLenDesc]
  | cons y ys ih =>
    intro h
    rw [List.pairwise_cons] at h
    obtain ⟨hy, hys⟩ := h
    by_cases hx : x.2.length < y.2.length
    · simp only [insertByLenDesc, if_pos hx]
      rw [List.pairwise_cons]
      refine ⟨?_, ih hys⟩
      intro z hz
      rcases List.mem_cons.mp ((insertByLenDesc_perm x ys).mem_iff.mp hz) with hzx | hzys
      · rw [hzx]; exact le_of_lt hx
      · exact hy z hzys
    · simp only [insertByLenDesc, if_neg hx]
      rw [List.pairwise_cons]
      refine ⟨?_, List.pairwise_cons.mpr ⟨hy, hys⟩⟩
      intro z hz
      rcases List.mem_cons.mp hz with hzy | hzys
      · rw [hzy]; exact Nat.le_of_not_lt hx
      · exact le_trans (hy z hzys) (Nat.le_of_not_lt hx)

/-- The sorted url→content items are in descending order of raw content
length. -/
theorem sortByLenDesc_pairwise : ∀ l,
    List.Pairwise (fun a b : String × Str => b.2.length ≤ a.2.length)
      (sortByLenDesc l) := by
  intro l
  induction l with
  | nil => simp [sortByLenDesc]
  | cons x xs ih => exact pairwise_insertByLenDesc x (sortByLenDesc xs) ih

/-- The `sources` list records the sorted urls in order. -/
theorem mkSources_urls (srs : List (String × String)) (maxPer : Nat) :
    ∀ su, (mkSources srs maxPer su).map (fun s => s.url) = su.map (fun p => p.1) := by
  intro su
  induction su with
  | nil => rfl
  | cons p ps ih => simp only [mkSources, List.map_cons] at *; rw [ih]; rfl

/-- The truncated-flag update does not change the url sequence. -/
theorem setTruncFlag_urls (u : String) (b : Bool) :
    ∀ l, (setTruncFlag u b l).map (fun s => s.url) = l.map (fun s => s.url) := by
  intro l
  induction l with
  | nil => rfl
  | cons s ss ih =>
    by_cases h : s.url == u
    · simp [setTruncFlag, h]
    · simp only [setTruncFlag, if_neg h, List.map_cons]
      rw [ih]

/-- The Phase-2 metadata updates do not change the url sequence. -/
theorem updateSources_urls :
    ∀ (allocs : List Alloc) (srcs : List SourceMeta),
      (updateSources srcs allocs).map (fun s => s.url) = srcs.map (fun s => s.url) := by
  intro allocs
  induction allocs with
  | nil => intro srcs; rfl
  | cons a as ih =>
    intro srcs
    calc (updateSources srcs (a :: as)).map (fun s => s.url)
        = (updateSources
            (setTruncFlag a.url (decide (a.allocated < a.origLen)) srcs) as).map
              (fun s => s.url) := rfl
      _ = (setTruncFlag a.url (decide (a.allocated < a.origLen)) srcs).map
            (fun s => s.url) := ih _
      _ = srcs.map (fun s => s.url) := setTruncFlag_urls _ _ srcs

/-- The url of an allocation record. -/
theorem allocFor_url (mt t : Nat) (p : String × Str) : (allocFor mt t p).url = p.1 := rfl

/-- The urls allocated by the Phase-2 loop form the initial segment of
the sorted urls of the length it produced. -/
theorem phase2Go_urls (mt t : Nat) : ∀ (l : List (String × Str)) (acc : Nat),
    (phase2Go mt t l acc).map (fun a => a.url)
      = (l.map (fun p => p.1)).take (phase2Go mt t l acc).length := by
  intro l
  induction l with
  | nil => intro acc; simp [phase2Go]
  | cons p rest ih =>
    intro acc
    by_cases h : mt ≤ acc + (allocFor mt t p).stored.length
    · simp [phase2Go, h, allocFor_url]
    · simp only [phase2Go, if_neg h, List.map_cons, List.length_cons,
        List.take_succ_cons]
      rw [ih, allocFor_url]

/-- Each Phase-2 allocation lies in the claimed clamping interval. -/
theorem allocFor_bounds (mt t : Nat) (p : String × Str) :
    min 1000 (allocFor mt t p).origLen ≤ (allocFor mt t p).allocated ∧
    (allocFor mt t p).allocated ≤ (allocFor mt t p).origLen := by
  refine ⟨?_, ?_⟩
  · show min 1000 p.2.length ≤ min (max (p.2.length * mt / t) 1000) p.2.length
    exact le_min (le_trans (min_le_left _ _) (le_max_right _ _)) (min_le_right _ _)
  · show min (max (p.2.length * mt / t) 1000) p.2.length ≤ p.2.length
    exact min_le_right _ _

/-- Clamping bounds for every allocation produced by the Phase-2 loop. -/
theorem phase2Go_bounds (mt t : Nat) : ∀ (l : List (String × Str)) (acc : Nat),
    ∀ a ∈ phase2Go mt t l acc,
      min 1000 a.origLen ≤ a.allocated ∧ a.allocated ≤ a.origLen := by
  intro l
  induction l with
  | nil => intro acc a ha; simp [phase2Go] at ha
  | cons p rest ih =>
    intro acc a ha
    by_cases h : mt ≤ acc + (allocFor mt t p).stored.length
    · simp only [phase2Go, if_pos h, List.mem_singleton] at ha
      rw [ha]; exact allocFor_bounds mt t p
    · simp only [phase2Go, if_neg h] at ha
      rcases List.mem_cons.mp ha with ha' | ha'
      · rw [ha']; exact allocFor_bounds mt t p
      · exact ih _ a ha'

/-- The Phase-2 running total stays strictly below `maxTotal` up to, but
not including, the last stored source. -/
theorem phase2Go_dropLast_sum (mt t : Nat) : ∀ (l : List (String × Str)) (acc : Nat),
    acc < mt →
    acc + (((phase2Go mt t l acc).dropLast).map (fun a => a.stored.length)).sum < mt := by
  intro l
  induction l with
  | nil => intro acc hacc; simpa [phase2Go] using hacc
  | cons p rest ih =>
    intro acc hacc
    by_cases h : mt ≤ acc + (allocFor mt t p).stored.length
    · simpa [phase2Go, h] using hacc
    · have h' : acc + (allocFor mt t p).stored.length < mt := by omega
      simp only [phase2Go, if_neg h]
      cases hrec : phase2Go mt t rest (acc + (allocFor mt t p).stored.length) with
      | nil => simpa using hacc
      | cons q qs =>
        have hih := ih (acc + (allocFor mt t p).stored.length) h'
        rw [hrec] at hih
        show acc + ((List.map (fun a => a.stored.length)
          (allocFor mt t p :: (q :: qs).dropLast))).sum < mt
        simp only [List.map_cons, List.sum_cons]
        omega

/-- The urls of the Phase-2 content mapping are the allocation urls. -/
theorem phase2Content_urls (su : List (String × Str)) (mt : Nat) :
    (phase2Content su mt).map (fun p => p.1)
      = (phase2Allocs su mt).map (fun a => a.url) := by
  simp [phase2Content, List.map_map]

/-- The content-block urls are the `truncated_content` keys in order. -/
theorem contentBlocks_urls (srs : List (String × String)) :
    ∀ tc, (contentBlocks srs tc).map (fun b => b.2.1) = tc.map (fun p => p.1) := by
  intro tc
  simp [contentBlocks, List.map_map]

/-- Unfolding of `fetch_documentation_for_llm` when Phase 2 triggers. -/
theorem fetchDoc_phase2 (uc : List (String × Str)) (srs : List (String × String))
    (maxPer maxTotal : Nat) (h2 : maxTotal < phase1Total maxPer (sortByLenDesc uc)) :
    fetchDocumentationForLlm uc srs maxPer maxTotal =
      { truncatedContent := phase2Content (sortByLenDesc uc) maxTotal
        sources := updateSources (mkSources srs maxPer (sortByLenDesc uc))
          (phase2Allocs (sortByLenDesc uc) maxTotal)
        totalContentLength :=
          ((phase2Content (sortByLenDesc uc) maxTotal).map (fun p => p.2.length)).sum
        blocks := contentBlocks srs (phase2Content (sortByLenDesc uc) maxTotal)
        summary := summaryRows
          (updateSources (mkSources srs maxPer (sortByLenDesc uc))
            (phase2Allocs (sortByLenDesc uc) maxTotal))
          (phase2Content (sortByLenDesc uc) maxTotal) } := by
  rw [fetchDocumentationForLlm, if_pos h2]

/-- Unfolding of `fetch_documentation_for_llm` when Phase 2 does not
trigger. -/
theorem fetchDoc_phase1 (uc : List (String × Str)) (srs : List (String × String))
    (maxPer maxTotal : Nat)
    (h2 : ¬ maxTotal < phase1Total maxPer (sortByLenDesc uc)) :
    fetchDocumentationForLlm uc srs maxPer maxTotal =
      { truncatedContent := phase1Content maxPer (sortByLenDesc uc)
        sources := mkSources srs maxPer (sortByLenDesc uc)
        totalContentLength := phase1Total maxPer (sortByLenDesc uc)
        blocks := contentBlocks srs (phase1Content maxPer (sortByLenDesc uc))
        summary := summaryRows (mkSources srs maxPer (sortByLenDesc uc))
          (phase1Content maxPer (sortByLenDesc uc)) } := by
  rw [fetchDocumentationForLlm, if_neg h2]

/-- The url membership test over an association list is the membership
test over its key sequence. -/
theorem any_fst_eq (tc : List (String × Str)) (u : String) :
    tc.any (fun p => p.1 == u) = (tc.map (fun p => p.1)).any (fun v => v == u) := by
  induction tc with
  | nil => rfl
  | cons p ps ih => simp only [List.any_cons, List.map_cons, ih]

/-- Filtering is determined by the predicate's values on members. -/
theorem filter_ext_on {α : Type} (p q : α → Bool) :
    ∀ l : List α, (∀ a ∈ l, p a = q a) → l.filter p = l.filter q := by
  intro l
  induction l with
  | nil => intro _; rfl
  | cons x xs ih =>
    intro h
    have hx := h x (List.mem_cons_self x xs)
    by_cases hp : p x = true
    · rw [List.filter_cons_of_pos hp, List.filter_cons_of_pos (hx ▸ hp),
        ih (fun a ha => h a (List.mem_cons_of_mem x ha))]
    · rw [List.filter_cons_of_neg (by simpa using hp),
        List.filter_cons_of_neg (by simp [← hx]; simpa using hp),
        ih (fun a ha => h a (List.mem_cons_of_mem x ha))]

/-- On a duplicate-free list, keeping exactly the elements of an initial
segment recovers that initial segment. -/
theorem filter_take_any (us : List String) : ∀ k : Nat, us.Nodup →
    us.filter (fun u => (us.take k).any (fun v => v == u)) = us.take k := by
  induction us with
  | nil => intro k _; simp
  | cons x xs ih =>
    intro k hnd
    obtain ⟨hx, hnd'⟩ := List.nodup_cons.mp hnd
    cases k with
    | zero => simp
    | succ m =>
      simp only [List.take_succ_cons]
      have hQx : ((x :: xs.take m).any (fun v => v == x)) = true := by simp
      have hstep : (x :: xs).filter (fun u => ((x :: xs.take m).any (fun v => v == u)))
          = x :: xs.filter (fun u => ((x :: xs.take m).any (fun v => v == u))) :=
        List.filter_cons_of_pos hQx
      rw [hstep]
      have hcong : xs.filter (fun u => ((x :: xs.take m).any (fun v => v == u)))
          = xs.filter (fun u => ((xs.take m).any (fun v => v == u))) := by
        refine filter_ext_on _ _ xs ?_
        intro u hu
        have hxu : (x == u) = false := by
          have : x ≠ u := fun he => hx (he ▸ hu)
          simpa using this
        simp [List.any_cons, hxu]
      rw [hcong, ih m hnd']

/-- Dropping the enumeration indices from the filtered summary rows
yields the url-filtered source sequence. -/
theorem enumFrom_filter_map (P : String → Bool) :
    ∀ (l : List SourceMeta) (n : Nat),
      (((List.enumFrom n l).filter (fun q => P q.2.url)).map (fun q => q.2.url))
        = (l.map (fun s => s.url)).filter P := by
  intro l
  induction l with
  | nil => intro n; rfl
  | cons s ss ih =>
    intro n
    show (((n, s) :: List.enumFrom (n + 1) ss).filter
        (fun q => P q.2.url)).map (fun q => q.2.url)
      = (s.url :: ss.map (fun t => t.url)).filter P
    by_cases h : P s.url = true
    · rw [List.filter_cons_of_pos (by simpa using h), List.filter_cons_of_pos h,
        List.map_cons, ih]
    · rw [List.filter_cons_of_neg (by simpa using h),
        List.filter_cons_of_neg (by simpa using h), ih]

/-- C2 (amended): Phase-1 per-source truncation first strips the raw
text; when the stripped length exceeds `maxPerSource`, it stores the
first `maxPerSource` stripped characters followed by the 23-character
truncation marker — so the stored length is `maxPerSource + 23`, not at
most `maxPerSource` — and otherwise stores the stripped text unchanged
(src/web_search.py lines 488-495). -/
theorem phase1_truncation_spec (maxPer : Nat) (c : Str) :
    (maxPer < (pyStrip c).length →
      phase1Store maxPer c = (pyStrip c).take maxPer ++ truncationMarker ∧
      (phase1Store maxPer c).length = maxPer + 23) ∧
    ((pyStrip c).length ≤ maxPer → phase1Store maxPer c = pyStrip c) := by
  constructor
  · intro h
    refine ⟨by simp [phase1Store, h], ?_⟩
    simp only [phase1Store, if_pos h, List.length_append, List.length_take]
    rw [truncationMarker_length]
    omega
  · intro h
    simp [phase1Store, Nat.not_lt.mpr h]

/-- Counterexample for C2 as stated: a 7-character source with
`maxPerSource = 5` is stored with length 28 (5 characters plus the
23-character marker), which is not ≤ 5. -/
theorem phase1_truncation_counterexample :
    5 < (List.replicate 7 'a').length ∧
    ((fetchDocumentationForLlm [("u", List.replicate 7 'a')] [] 5 100).truncatedContent.map
        (fun p => p.2.length)) = [28] ∧
    ¬ (28 ≤ 5) := by
  refine ⟨by simp, by decide, by omega⟩

/-- Witness for the amended C2 at a concrete over-cap source. -/
theorem phase1_truncation_spec_witness :
    5 < (pyStrip (List.replicate 7 'a')).length ∧
    (phase1Store 5 (List.replicate 7 'a')
        = (pyStrip (List.replicate 7 'a')).take 5 ++ truncationMarker ∧
      (phase1Store 5 (List.replicate 7 'a')).length = 5 + 23) :=
  ⟨by decide, (phase1_truncation_spec 5 (List.replicate 7 'a')).1 (by decide)⟩

/-- Counterexample for C1 as stated: with a single 30-character source
and `maxTotal = 25`, Phase 2 triggers (Phase-1 sum 30 > 25) and the
allocation loop stores the full 30 characters (the 1000-character floor
clamps the proportional share up to the original length), so the total
allocated content length is 30, which is not ≤ `maxTotal`. -/
theorem phase2_total_counterexample :
    25 < phase1Total 100 (sortByLenDesc [("u", List.replicate 30 'a')]) ∧
    ¬ ((fetchDocumentationForLlm [("u", List.replicate 30 'a')] [] 100 25).totalContentLength
        ≤ 25) := by
  decide

/-- C1 (amended): when Phase 2 runs, every source that receives content
receives an allocation in the interval `[min(1000, originalLen),
originalLen]`; the running total of stored content is strictly below
`maxTotal` before the last stored source (so only the final stored
source can carry the total past `maxTotal`, by up to its allocation plus
the 23-character marker); and the reported total content length is the
sum of the stored lengths of the allocated sources
(src/web_search.py lines 508-546). -/
theorem phase2_allocation_spec (uc : List (String × Str)) (srs : List (String × String))
    (maxPer maxTotal : Nat) (hpos : 0 < maxTotal)
    (h2 : maxTotal < phase1Total maxPer (sortByLenDesc uc)) :
    (∀ a ∈ phase2Allocs (sortByLenDesc uc) maxTotal,
        min 1000 a.origLen ≤ a.allocated ∧ a.allocated ≤ a.origLen) ∧
    ((((phase2Allocs (sortByLenDesc uc) maxTotal).dropLast).map
        (fun a => a.stored.length)).sum < maxTotal) ∧
    (fetchDocumentationForLlm uc srs maxPer maxTotal).totalContentLength
      = ((phase2Allocs (sortByLenDesc uc) maxTotal).map (fun a => a.stored.length)).sum := by
  refine ⟨fun a ha => phase2Go_bounds _ _ _ _ a ha, ?_, ?_⟩
  · have h0 := phase2Go_dropLast_sum maxTotal
      (((sortByLenDesc uc).map (fun p => p.2.length)).sum) (sortByLenDesc uc) 0 hpos
    simpa [phase2Allocs] using h0
  · rw [fetchDoc_phase2 uc srs maxPer maxTotal h2]
    show ((phase2Content (sortByLenDesc uc) maxTotal).map (fun p => p.2.length)).sum
      = ((phase2Allocs (sortByLenDesc uc) maxTotal).map (fun a => a.stored.length)).sum
    rw [phase2Content, List.map_map]
    rfl

/-- Witness for the amended C1 at a concrete Phase-2 input. -/
theorem phase2_allocation_spec_witness :
    (((phase2Allocs (sortByLenDesc [("u", List.replicate 30 'a')]) 25).dropLast).map
        (fun a => a.stored.length)).sum < 25 :=
  (phase2_allocation_spec [("u", List.replicate 30 'a')] [] 100 25 (by omega)
    (by decide)).2.1

/-- C3: the sources of the aggregated document are ordered by original
(raw) content length descending — the sorted items are pairwise
descending by length and a permutation of the url→content mapping — and
this same order governs the `sources` sequence, the Phase-2 allocation
order (the `truncated_content` keys are an initial segment of the sorted
urls), and the order of the content blocks of `formatted_content`
(src/web_search.py lines 480-481, 548-558); it is not the
search-provider rank order but the length-descending order. -/
theorem ordering_spec (uc : List (String × Str)) (srs : List (String × String))
    (maxPer maxTotal : Nat) :
    List.Pairwise (fun a b : String × Str => b.2.length ≤ a.2.length) (sortByLenDesc uc) ∧
    (sortByLenDesc uc).Perm uc ∧
    (fetchDocumentationForLlm uc srs maxPer maxTotal).sources.map (fun s => s.url)
      = (sortByLenDesc uc).map (fun p => p.1) ∧
    (fetchDocumentationForLlm uc srs maxPer maxTotal).truncatedContent.map (fun p => p.1)
      = ((sortByLenDesc uc).map (fun p => p.1)).take
          (fetchDocumentationForLlm uc srs maxPer maxTotal).truncatedContent.length ∧
    (fetchDocumentationForLlm uc srs maxPer maxTotal).blocks.map (fun b => b.2.1)
      = (fetchDocumentationForLlm uc srs maxPer maxTotal).truncatedContent.map
          (fun p => p.1) := by
  refine ⟨sortByLenDesc_pairwise uc, sortByLenDesc_perm uc, ?_, ?_, ?_⟩
  · by_cases h2 : maxTotal < phase1Total maxPer (sortByLenDesc uc)
    · rw [fetchDoc_phase2 uc srs maxPer maxTotal h2]
      show (updateSources (mkSources srs maxPer (sortByLenDesc uc))
          (phase2Allocs (sortByLenDesc uc) maxTotal)).map (fun s => s.url)
        = (sortByLenDesc uc).map (fun p => p.1)
      rw [updateSources_urls, mkSources_urls]
    · rw [fetchDoc_phase1 uc srs maxPer maxTotal h2]
      show (mkSources srs maxPer (sortByLenDesc uc)).map (fun s => s.url)
        = (sortByLenDesc uc).map (fun p => p.1)
      rw [mkSources_urls]
  · by_cases h2 : maxTotal < phase1Total maxPer (sortByLenDesc uc)
    · rw [fetchDoc_phase2 uc srs maxPer maxTotal h2]
      show (phase2Content (sortByLenDesc uc) maxTotal).map (fun p => p.1)
        = ((sortByLenDesc uc).map (fun p => p.1)).take
            (phase2Content (sortByLenDesc uc) maxTotal).length
      rw [phase2Content_urls]
      have hlen : (phase2Content (sortByLenDesc uc) maxTotal).length
          = (phase2Allocs (sortByLenDesc uc) maxTotal).length := by
        simp [phase2Content]
      rw [hlen]
      exact phase2Go_urls maxTotal _ (sortByLenDesc uc) 0
    · rw [fetchDoc_phase1 uc srs maxPer maxTotal h2]
      show (phase1Content maxPer (sortByLenDesc uc)).map (fun p => p.1)
        = ((sortByLenDesc uc).map (fun p => p.1)).take
            (phase1Content maxPer (sortByLenDesc uc)).length
      have h1 : (phase1Content maxPer (sortByLenDesc uc)).map (fun p => p.1)
          = (sortByLenDesc uc).map (fun p => p.1) := by
        simp [phase1Content, List.map_map]
      have h2' : (phase1Content maxPer (sortByLenDesc uc)).length
          = ((sortByLenDesc uc).map (fun p => p.1)).length := by
        simp [phase1Content]
      rw [h1, h2', List.take_length]
  · by_cases h2 : maxTotal < phase1Total maxPer (sortByLenDesc uc)
    · rw [fetchDoc_phase2 uc srs maxPer maxTotal h2]
      exact contentBlocks_urls srs _
    · rw [fetchDoc_phase1 uc srs maxPer maxTotal h2]
      exact contentBlocks_urls srs _

/-- C9: whenever Phase 2 runs, the trailing Sources Summary of
`formatted_content` enumerates exactly the sources that received
content, in the same order as the content blocks; every source dropped
by the early stop appears neither as a content block nor as a summary
entry (src/web_search.py lines 540-546 and 560-565). -/
theorem summary_spec (uc : List (String × Str)) (srs : List (String × String))
    (maxPer maxTotal : Nat) (hnd : (uc.map (fun p => p.1)).Nodup)
    (h2 : maxTotal < phase1Total maxPer (sortByLenDesc uc)) :
    (fetchDocumentationForLlm uc srs maxPer maxTotal).summary.map (fun q => q.2.url)
      = (fetchDocumentationForLlm uc srs maxPer maxTotal).blocks.map (fun b => b.2.1) ∧
    (∀ p ∈ sortByLenDesc uc,
      p.1 ∉ (fetchDocumentationForLlm uc srs maxPer maxTotal).truncatedContent.map
          (fun q => q.1) →
        p.1 ∉ (fetchDocumentationForLlm uc srs maxPer maxTotal).blocks.map
            (fun b => b.2.1) ∧
        p.1 ∉ (fetchDocumentationForLlm uc srs maxPer maxTotal).summary.map
            (fun q => q.2.url)) := by
  have hndus : ((sortByLenDesc uc).map (fun p => p.1)).Nodup :=
    (((sortByLenDesc_perm uc).map (fun p => p.1)).nodup_iff).mpr hnd
  have htc : (phase2Content (sortByLenDesc uc) maxTotal).map (fun p => p.1)
      = ((sortByLenDesc uc).map (fun p => p.1)).take
          (phase2Allocs (sortByLenDesc uc) maxTotal).length := by
    rw [phase2Content_urls]
    exact phase2Go_urls maxTotal _ (sortByLenDesc uc) 0
  have hsummary :
      (summaryRows
        (updateSources (mkSources srs maxPer (sortByLenDesc uc))
          (phase2Allocs (sortByLenDesc uc) maxTotal))
        (phase2Content (sortByLenDesc uc) maxTotal)).map (fun q => q.2.url)
      = (phase2Content (sortByLenDesc uc) maxTotal).map (fun p => p.1) := by
    rw [summaryRows]
    rw [enumFrom_filter_map
      (fun u => (phase2Content (sortByLenDesc uc) maxTotal).any (fun p => p.1 == u))]
    rw [updateSources_urls, mkSources_urls]
    have hpred : ∀ u ∈ (sortByLenDesc uc).map (fun p => p.1),
        ((phase2Content (sortByLenDesc uc) maxTotal).any (fun p => p.1 == u))
          = ((((sortByLenDesc uc).map (fun p => p.1)).take
              (phase2Allocs (sortByLenDesc uc) maxTotal).length).any
                (fun v => v == u)) := by
      intro u _
      rw [any_fst_eq, htc]
    rw [filter_ext_on _ _ _ hpred,
      filter_take_any _ (phase2Allocs (sortByLenDesc uc) maxTotal).length hndus, ← htc]
  constructor
  · rw [fetchDoc_phase2 uc srs maxPer maxTotal h2]
    show (summaryRows
        (updateSources (mkSources srs maxPer (sortByLenDesc uc))
          (phase2Allocs (sortByLenDesc uc) maxTotal))
        (phase2Content (sortByLenDesc uc) maxTotal)).map (fun q => q.2.url)
      = (contentBlocks srs (phase2Content (sortByLenDesc uc) maxTotal)).map
          (fun b => b.2.1)
    rw [hsummary, contentBlocks_urls]
  · intro p _ hp
    rw [fetchDoc_phase2 uc srs maxPer maxTotal h2] at hp ⊢
    refine ⟨?_, ?_⟩
    · show p.1 ∉ (contentBlocks srs (phase2Content (sortByLenDesc uc) maxTotal)).map
          (fun b => b.2.1)
      rw [contentBlocks_urls]
      exact hp
    · show p.1 ∉ (summaryRows
          (updateSources (mkSources srs maxPer (sortByLenDesc uc))
            (phase2Allocs (sortByLenDesc uc) maxTotal))
          (phase2Content (sortByLenDesc uc) maxTotal)).map (fun q => q.2.url)
      rw [hsummary]
      exact hp

/-- Witness for C9 at a two-source input where the Phase-2 early stop
drops the second source: the summary urls equal the block urls. -/
theorem summary_spec_witness :
    (fetchDocumentationForLlm
        [("u", List.replicate 30 'a'), ("v", List.replicate 20 'b')] [] 100 25).summary.map
          (fun q => q.2.url)
      = (fetchDocumentationForLlm
          [("u", List.replicate 30 'a'), ("v", List.replicate 20 'b')] [] 100 25).blocks.map
            (fun b => b.2.1) :=
  (summary_spec [("u", List.replicate 30 'a'), ("v", List.replicate 20 'b')] [] 100 25
    (by decide) (by decide)).1

/-- Witness for C10 at a concrete 501-character content. -/
theorem contentPreview_spec_witness :
    contentPreview (List.replicate 501 'a')
        = (List.replicate 501 'a').take 500 ++ ("...").toList ∧
    (contentPreview (List.replicate 501 'a')).length = 503 :=
  (contentPreview_spec (List.replicate 501 'a')).1 (by rw [List.length_replicate]; omega)

end WebSearch
